import Mathlib

/-!
Verification of the natural-language specification of the `my_shell.c`
command interpreter against a shallow embedding of its code.

The embedding keeps the source's names: `tokenize` models the `strtok`
loop inside `processInput`, `handleMultipleCommands` models the
multi-command splitter (its local `commands` array is made explicit as a
buffer of optional strings, `none` standing for a NULL pointer, and the
initial buffer contents model the uninitialized local array),
`getCommandType` and `isBuiltin` model the classifier, `executeCommand`
models the fork/execvp/wait executor with the outcomes of the two OS
primitives as parameters, `processCommand` records the dispatch events of
one line, and `runInteractive` models the interactive loop of `main`.
-/

/-- `MAX_CMD_LENGTH` from my_shell.c line 7: capacity of the line buffer
read by `fgets` (so at most 511 characters of payload per line). -/
def MAX_CMD_LENGTH : Nat := 512

/-- `MAX_NUM_CMDS` from my_shell.c line 8: number of entries of the
`args` array in `main` and of the `commands` array in
`handleMultipleCommands`. -/
def MAX_NUM_CMDS : Nat := 20

/-- The names in the `builtinCommands` table (my_shell.c lines 24-27). -/
def builtinNames : List String := ["quit", "author"]

/-- `isBuiltin` (my_shell.c lines 124-138): scans the builtin table and
compares each name with the argument. -/
def isBuiltin (arg : String) : Bool :=
  builtinNames.any fun name => decide (arg = name)

/-- The delimiter set `" \n\t"` handed to `strtok` in `processInput`
(my_shell.c line 193). -/
def isDelimChar (c : Char) : Bool :=
  decide (c = ' ' ∨ c = '\n' ∨ c = '\t')

/-- The `strtok` loop of `processInput` (my_shell.c lines 193-197) over
the characters of the line, with the current token accumulated in
reverse: maximal runs of non-delimiter characters become tokens. -/
def tokAux : List Char → List Char → List String
  | [], acc => if acc = [] then [] else [String.mk acc.reverse]
  | c :: cs, acc =>
    if isDelimChar c then
      (if acc = [] then [] else [String.mk acc.reverse]) ++ tokAux cs []
    else
      tokAux cs (c :: acc)

/-- `processInput` (my_shell.c lines 180-199), abstracted to the token
sequence it stores into `args` (the NULL terminator is the end of the
list). -/
def tokenize (line : String) : List String :=
  tokAux line.data []

/-- The indices into `args` written by `processInput`: one slot per token
(`args[j++] = token`) plus the NULL terminator (`args[j] = NULL`,
my_shell.c line 198). -/
def processInputWriteIndices (line : String) : List Nat :=
  List.range ((tokenize line).length + 1)

/-- The `commands` array of `handleMultipleCommands` (my_shell.c line
82): each slot holds either a token pointer or NULL (`none`). -/
abbrev Buf := List (Option String)

/-- The argument vector `executeCommand` actually receives from the
`commands` buffer: the entries up to the first NULL. -/
def argvOf (buf : Buf) : List String :=
  (buf.takeWhile Option.isSome).filterMap id

/-- The loop of `handleMultipleCommands` (my_shell.c lines 84-94),
returning the argument vectors passed to `executeCommand`, in order.
On `args[i] == delimiter || args[i+1] == NULL` the slot `commands[j]`
receives `args[i]` when `args[i+1] == NULL` and NULL otherwise, then
`executeCommand(commands)` runs and `j` is reset to 0; otherwise
`commands[j++] = args[i]`. -/
def handleAux (delimiter : String) : List String → Buf → Nat → List (List String)
  | [], _, _ => []
  | a :: rest, buf, j =>
    if a = delimiter ∨ rest = [] then
      argvOf (buf.set j (if rest = [] then some a else none)) ::
        handleAux delimiter rest (buf.set j (if rest = [] then some a else none)) 0
    else
      handleAux delimiter rest (buf.set j (some a)) (j + 1)

/-- `handleMultipleCommands` (my_shell.c lines 71-95): `initBuf` is the
content of the uninitialized local `commands` array. The result is the
list of argument vectors handed to `executeCommand`, in order. -/
def handleMultipleCommands (args : List String) (delimiter : String) (initBuf : Buf) :
    List (List String) :=
  handleAux delimiter args initBuf 0

/-- The scan loop of `getCommandType` (my_shell.c lines 115-120): checks
`"&&"` before `";"` at each position, returning 3 or 2 at the first hit
and 1 when neither occurs. -/
def scanDelims : List String → Nat
  | [] => 1
  | t :: ts => if t = "&&" then 3 else if t = ";" then 2 else scanDelims ts

/-- `getCommandType` (my_shell.c lines 98-121): 0 empty, 4 single
builtin token, 3 conditional, 2 sequential, 1 simple. -/
def getCommandType (args : List String) : Nat :=
  match args with
  | [] => 0
  | a :: rest => if rest = [] ∧ isBuiltin a = true then 4 else scanDelims (a :: rest)

/-- The effects of one `executeCommand` call (my_shell.c lines 47-69),
with the outcomes of the OS primitives `fork` and `execvp` as
parameters. `perror` messages are modeled by their fixed prefix
strings. -/
structure ExecEffects where
  childStderr : List String
  childExitsNonZero : Bool
  imageReplaced : Bool
  parentStderr : List String
  parentWaitedForChild : Bool
  shellExits : Bool

/-- `executeCommand` (my_shell.c lines 47-69). When `fork` succeeds the
child runs `execvp(args[0], args)` — on failure `perror` then
`exit(EXIT_FAILURE)` — while the parent runs `wait(NULL)`; when `fork`
fails the parent runs `perror("Fork failed")` and returns. The shell
process itself never exits inside this call. -/
def executeCommand (args : List String) (forkOk : Bool) (execOk : Bool) : ExecEffects :=
  if forkOk then
    { childStderr := if execOk then [] else ["Error executing command"]
      childExitsNonZero := !execOk
      imageReplaced := execOk
      parentStderr := []
      parentWaitedForChild := true
      shellExits := false }
  else
    { childStderr := []
      childExitsNonZero := false
      imageReplaced := false
      parentStderr := ["Fork failed"]
      parentWaitedForChild := false
      shellExits := false }

/-- A dispatch performed by `processCommand`: either a call of
`executeCommand` with an argument vector, or a call of
`executeBuiltinCommand` with a builtin name. -/
inductive DispatchEvent where
  | external (argv : List String)
  | builtinCall (name : String)
  deriving DecidableEq

/-- `processCommand` (my_shell.c lines 159-178), recorded as the list of
dispatch events of one line: case 1 calls `executeCommand(args)`
directly, cases 2 and 3 call `handleMultipleCommands` (which calls only
`executeCommand`), case 4 calls `executeBuiltinCommand(args[0])`, case 0
and the default case dispatch nothing. -/
def processCommand (args : List String) (buf : Buf) : List DispatchEvent :=
  match getCommandType args with
  | 0 => []
  | 1 => [DispatchEvent.external args]
  | 2 => (handleMultipleCommands args ";" buf).map DispatchEvent.external
  | 3 => (handleMultipleCommands args "&&" buf).map DispatchEvent.external
  | 4 => [DispatchEvent.builtinCall (args.headD "")]
  | _ => []

/-- Whether processing a line terminates the shell process: only the
`quit` builtin calls `exit(0)` (my_shell.c lines 39-41); `author`
returns, and external commands never exit the parent. -/
def processCommandExits (args : List String) : Bool :=
  match getCommandType args with
  | 4 => decide (args.headD "" = "quit")
  | _ => false

/-- One read attempt of the interactive loop: `fgets` either fails or
yields a line. -/
inductive ReadResult where
  | failure
  | line (s : String)
  deriving DecidableEq

/-- Observable events of the interactive loop: the prompt print, and the
processing of a tokenized line. -/
inductive LoopEvent where
  | prompt
  | processed (tokens : List String)
  deriving DecidableEq

/-- The interactive loop of `main` (my_shell.c lines 213-219) run over a
list of read outcomes: each iteration prints the prompt, a failed read
`continue`s, a read line is tokenized and processed; the flag records
whether the shell terminated (via the `quit` builtin) during the run. -/
def runInteractive : List ReadResult → List LoopEvent × Bool
  | [] => ([], false)
  | ReadResult.failure :: rs =>
    (LoopEvent.prompt :: (runInteractive rs).1, (runInteractive rs).2)
  | ReadResult.line s :: rs =>
    if processCommandExits (tokenize s) then
      ([LoopEvent.prompt, LoopEvent.processed (tokenize s)], true)
    else
      (LoopEvent.prompt :: LoopEvent.processed (tokenize s) :: (runInteractive rs).1,
        (runInteractive rs).2)

/-- The substitution of the refinement claim about `&&` versus `;`
lines: replace every `&&` token by `;`. -/
def substConditional (t : String) : String :=
  if t = "&&" then ";" else t

lemma isBuiltin_eq_true_iff (a : String) :
    isBuiltin a = true ↔ a = "quit" ∨ a = "author" := by
  simp [isBuiltin, builtinNames]

lemma scanDelims_ne_four (l : List String) : scanDelims l ≠ 4 := by
  induction l with
  | nil => simp [scanDelims]
  | cons t ts ih =>
    simp only [scanDelims]
    split
    · simp
    · split
      · simp
      · exact ih

lemma scanDelims_of_no_delims (l : List String)
    (h : ∀ x ∈ l, x ≠ "&&" ∧ x ≠ ";") : scanDelims l = 1 := by
  induction l with
  | nil => rfl
  | cons t ts ih =>
    have ht := h t (List.mem_cons_self t ts)
    simp only [scanDelims, if_neg ht.1, if_neg ht.2]
    exact ih fun x hx => h x (List.mem_cons_of_mem t hx)

lemma scanDelims_first (pre : List String) (d : String) (post : List String)
    (hd : d = "&&" ∨ d = ";") (hpre : ∀ x ∈ pre, x ≠ "&&" ∧ x ≠ ";") :
    scanDelims (pre ++ d :: post) = if d = "&&" then 3 else 2 := by
  induction pre with
  | nil =>
    simp only [List.nil_append, scanDelims]
    rcases hd with h | h
    · simp [h]
    · subst h
      norm_num
  | cons p ps ih =>
    have hp := hpre p (List.mem_cons_self p ps)
    simp only [List.cons_append, scanDelims, if_neg hp.1, if_neg hp.2]
    exact ih fun x hx => hpre x (List.mem_cons_of_mem p hx)

lemma scanDelims_of_mem (l : List String) (h : "&&" ∈ l ∨ ";" ∈ l) :
    scanDelims l = 2 ∨ scanDelims l = 3 := by
  induction l with
  | nil => simp at h
  | cons t ts ih =>
    by_cases h1 : t = "&&"
    · right; simp [scanDelims, h1]
    · by_cases h2 : t = ";"
      · left; simp [scanDelims, h2, h1]
      · simp only [scanDelims, if_neg h1, if_neg h2]
        apply ih
        rcases h with h | h
        · left
          rcases List.mem_cons.mp h with h | h
          · exact absurd h.symm h1
          · exact h
        · right
          rcases List.mem_cons.mp h with h | h
          · exact absurd h.symm h2
          · exact h

lemma getCommandType_eq_four_iff (args : List String) :
    getCommandType args = 4 ↔ ∃ t, args = [t] ∧ (t = "quit" ∨ t = "author") := by
  cases args with
  | nil => simp [getCommandType]
  | cons a rest =>
    simp only [getCommandType]
    split
    · rename_i h
      obtain ⟨h1, h2⟩ := h
      subst h1
      simp [(isBuiltin_eq_true_iff _).mp h2]
    · rename_i h
      constructor
      · intro hs
        exact absurd hs (scanDelims_ne_four _)
      · rintro ⟨t, ht, hb⟩
        obtain ⟨rfl, rfl⟩ : a = t ∧ rest = [] := by simpa using ht
        exact absurd ⟨rfl, (isBuiltin_eq_true_iff _).mpr hb⟩ h

lemma getCommandType_of_delim_split (args pre post : List String) (d : String)
    (hsplit : args = pre ++ d :: post) (hd : d = "&&" ∨ d = ";")
    (hpre : ∀ x ∈ pre, x ≠ "&&" ∧ x ≠ ";") :
    getCommandType args = if d = "&&" then 3 else 2 := by
  subst hsplit
  have hdb : isBuiltin d = true → False := by
    intro h
    rcases (isBuiltin_eq_true_iff _).mp h with h | h <;> rcases hd with h2 | h2 <;> simp_all
  cases pre with
  | nil =>
    simp only [List.nil_append, getCommandType]
    rw [if_neg]
    · exact scanDelims_first [] d post hd (by simp)
    · rintro ⟨-, hb⟩
      exact hdb hb
  | cons p ps =>
    simp only [List.cons_append, getCommandType]
    rw [if_neg]
    · exact scanDelims_first (p :: ps) d post hd hpre
    · rintro ⟨h, -⟩
      exact List.append_ne_nil_of_right_ne_nil ps (List.cons_ne_nil d post) h

lemma getCommandType_of_delim_mem (args : List String)
    (h : "&&" ∈ args ∨ ";" ∈ args) :
    getCommandType args = 2 ∨ getCommandType args = 3 := by
  cases args with
  | nil => simp at h
  | cons a rest =>
    simp only [getCommandType]
    rw [if_neg]
    · exact scanDelims_of_mem _ h
    · rintro ⟨rfl, hb⟩
      rcases (isBuiltin_eq_true_iff _).mp hb with rfl | rfl <;> simp_all

/-- C5: the classifier returns 0 (Empty) on the empty sequence; 4 (Builtin)
exactly for a single token equal to `quit` or `author`; otherwise the
positionally first `&&` or `;` token determines the result (3 for `&&`,
2 for `;`); otherwise 1 (Simple). -/
theorem c5_classifier (args : List String) :
    (args = [] → getCommandType args = 0) ∧
    (getCommandType args = 4 ↔ ∃ t, args = [t] ∧ (t = "quit" ∨ t = "author")) ∧
    (∀ pre d post, args = pre ++ d :: post → (d = "&&" ∨ d = ";") →
      (∀ x ∈ pre, x ≠ "&&" ∧ x ≠ ";") →
      getCommandType args = if d = "&&" then 3 else 2) ∧
    (args ≠ [] → (∀ x ∈ args, x ≠ "&&" ∧ x ≠ ";") →
      (¬ ∃ t, args = [t] ∧ (t = "quit" ∨ t = "author")) →
      getCommandType args = 1) := by
  refine ⟨fun h => by subst h; rfl, getCommandType_eq_four_iff args, ?_, ?_⟩
  · intro pre d post hsplit hd hpre
    exact getCommandType_of_delim_split args pre post d hsplit hd hpre
  · intro hne hnd hnb
    cases args with
    | nil => exact absurd rfl hne
    | cons a rest =>
      simp only [getCommandType]
      rw [if_neg]
      · exact scanDelims_of_no_delims _ hnd
      · rintro ⟨rfl, hb⟩
        exact hnb ⟨a, rfl, (isBuiltin_eq_true_iff _).mp hb⟩

/-- Witness for C5 at concrete inputs: `["ls","-l",";","pwd"]` classifies
as 2 (SequentialGroup) and `["quit","now"]` as 1 (Simple). -/
theorem c5_classifier_witness :
    getCommandType ["ls", "-l", ";", "pwd"] = 2 ∧ getCommandType ["quit", "now"] = 1 := by
  constructor
  · have h := (c5_classifier ["ls", "-l", ";", "pwd"]).2.2.1 ["ls", "-l"] ";" ["pwd"]
      rfl (Or.inr rfl) (by decide)
    simpa using h
  · exact (c5_classifier ["quit", "now"]).2.2.2 (by decide) (by decide)
      (by rintro ⟨t, ht, -⟩; simp at ht)

/-- C10: whenever the token sequence contains a delimiter, every dispatch
of `processCommand` is a call of the external `executeCommand` (never the
builtin registry), and a builtin dispatch can only happen when the builtin
name is the sole token of the line. -/
theorem c10_group_dispatch (args : List String) (buf : Buf) :
    (("&&" ∈ args ∨ ";" ∈ args) →
      ∀ e ∈ processCommand args buf, ∃ argv, e = DispatchEvent.external argv) ∧
    (∀ name, DispatchEvent.builtinCall name ∈ processCommand args buf →
      args = [name] ∧ (name = "quit" ∨ name = "author")) := by
  constructor
  · intro h e he
    rcases getCommandType_of_delim_mem args h with h2 | h2 <;>
      simp only [processCommand, h2] at he <;>
      · rcases List.mem_map.mp he with ⟨argv, -, rfl⟩
        exact ⟨argv, rfl⟩
  · intro name hmem
    by_cases h4 : getCommandType args = 4
    · obtain ⟨t, rfl, hb⟩ := (getCommandType_eq_four_iff args).mp h4
      simp only [processCommand, h4, List.headD, List.mem_singleton] at hmem
      obtain rfl : name = t := by injection hmem
      exact ⟨rfl, hb⟩
    · exfalso
      unfold processCommand at hmem
      revert hmem
      split
      · simp
      · simp
      · intro hmem
        rcases List.mem_map.mp hmem with ⟨argv, -, h⟩
        exact DispatchEvent.noConfusion h
      · intro hmem
        rcases List.mem_map.mp hmem with ⟨argv, -, h⟩
        exact DispatchEvent.noConfusion h
      · rename_i h
        exact absurd h h4
      · simp

/-- Witness for C10 at `["quit",";","ls"]`: every dispatch is external. -/
theorem c10_group_dispatch_witness :
    (";" ∈ (["quit", ";", "ls"] : List String)) ∧
      ∀ e ∈ processCommand ["quit", ";", "ls"] (List.replicate MAX_NUM_CMDS none),
        ∃ argv, e = DispatchEvent.external argv := by
  exact ⟨by decide,
    (c10_group_dispatch ["quit", ";", "ls"] (List.replicate MAX_NUM_CMDS none)).1
      (Or.inr (by decide))⟩

lemma substConditional_ne (a : String) (h : a ≠ "&&") : substConditional a = a := by
  simp [substConditional, h]

lemma handleAux_cons (delimiter a : String) (rest : List String) (buf : Buf) (j : Nat) :
    handleAux delimiter (a :: rest) buf j =
      if a = delimiter ∨ rest = [] then
        argvOf (buf.set j (if rest = [] then some a else none)) ::
          handleAux delimiter rest (buf.set j (if rest = [] then some a else none)) 0
      else
        handleAux delimiter rest (buf.set j (some a)) (j + 1) := rfl

lemma argvOf_set_zero_none (b : Buf) : argvOf (b.set 0 none) = [] := by
  cases b <;> rfl

lemma handleAux_double_delim_mem :
    ∀ (pre : List String) (d t : String) (rest : List String) (buf : Buf) (j : Nat),
    [] ∈ handleAux d (pre ++ d :: d :: t :: rest) buf j := by
  intro pre
  induction pre with
  | nil =>
    intro d t rest buf j
    rw [List.nil_append, handleAux_cons,
      if_pos (Or.inl rfl : d = d ∨ (d :: t :: rest : List String) = []),
      if_neg (List.cons_ne_nil d (t :: rest)), handleAux_cons,
      if_pos (Or.inl rfl : d = d ∨ (t :: rest : List String) = []),
      if_neg (List.cons_ne_nil t rest), argvOf_set_zero_none]
    exact List.mem_cons_of_mem _ (List.mem_cons_self _ _)
  | cons p ps ih =>
    intro d t rest buf j
    rw [List.cons_append, handleAux_cons]
    by_cases h : p = d ∨ ps ++ d :: d :: t :: rest = []
    · rw [if_pos h]
      exact List.mem_cons_of_mem _ (ih d t rest _ 0)
    · rw [if_neg h]
      exact ih d t rest _ _

/-- C4 (amended): an empty group does not suppress the Process Executor
invocation, and when the group-ending delimiter is not the last token of
the sequence the invocation for the empty slot receives the empty token
sequence: a delimiter at the very start makes the first invocation
receive zero tokens, and a delimiter immediately following another
delimiter (anywhere in the sequence, with further input after it) yields
an invocation with zero tokens, for every buffer content. When the empty
slot's delimiter is the last token of the sequence, the executor is
invoked all the same, but receives the delimiter itself as its first
token. -/
theorem c4_amended (d t : String) (rest pre : List String) (b0 : Option String)
    (bs buf : Buf) :
    (handleMultipleCommands (d :: t :: rest) d buf).head? = some [] ∧
    [] ∈ handleMultipleCommands (pre ++ d :: d :: t :: rest) d buf ∧
    handleMultipleCommands [d] d (b0 :: bs) = [d :: argvOf bs] := by
  refine ⟨?_, handleAux_double_delim_mem pre d t rest buf 0, ?_⟩
  · have hcond : d = d ∨ (t :: rest : List String) = [] := Or.inl rfl
    have hne : (t :: rest : List String) ≠ [] := List.cons_ne_nil t rest
    simp only [handleMultipleCommands, handleAux, if_pos hcond, if_neg hne, List.head?]
    cases buf with
    | nil => rfl
    | cons b bs2 => rfl
  · simp only [handleMultipleCommands]
    rw [handleAux_cons, if_pos (Or.inr rfl : d = d ∨ ([] : List String) = [])]
    rfl

lemma handleAux_subst : ∀ (args : List String) (buf : Buf) (j : Nat),
    ";" ∉ args → args.getLast? ≠ some "&&" →
    handleAux "&&" args buf j = handleAux ";" (args.map substConditional) buf j := by
  intro args
  induction args with
  | nil => intro buf j _ _; rfl
  | cons a rest ih =>
    intro buf j hmem hlast
    have ha : a ≠ ";" := fun h => hmem (by simp [h])
    have hrest : ";" ∉ rest := fun h => hmem (List.mem_cons_of_mem a h)
    by_cases haa : a = "&&"
    · subst haa
      cases rest with
      | nil => exact absurd (by simp [List.getLast?]) hlast
      | cons r rs =>
        have hlast2 : (r :: rs).getLast? ≠ some "&&" := by
          rwa [List.getLast?_cons_cons] at hlast
        have hne : (r :: rs : List String) ≠ [] := List.cons_ne_nil r rs
        have hnem : ((r :: rs).map substConditional) ≠ [] := by simp
        have hs : substConditional "&&" = ";" := rfl
        rw [List.map_cons, hs]
        conv_lhs => rw [handleAux_cons]
        conv_rhs => rw [handleAux_cons]
        rw [if_pos (Or.inl rfl : ("&&" : String) = "&&" ∨ (r :: rs : List String) = []),
          if_pos (Or.inl rfl : (";" : String) = ";" ∨ (r :: rs).map substConditional = []),
          if_neg hne, if_neg hnem, ih (buf.set j none) 0 hrest hlast2]
    · have hsa : substConditional a = a := substConditional_ne a haa
      cases rest with
      | nil =>
        rw [List.map_cons, List.map_nil, hsa]
        conv_lhs => rw [handleAux_cons]
        conv_rhs => rw [handleAux_cons]
        rw [if_pos (Or.inr rfl : a = "&&" ∨ ([] : List String) = []),
          if_pos (Or.inr rfl : a = ";" ∨ ([] : List String) = [])]
        rfl
      | cons r rs =>
        have hlast2 : (r :: rs).getLast? ≠ some "&&" := by
          rwa [List.getLast?_cons_cons] at hlast
        have hc1 : ¬ (a = "&&" ∨ (r :: rs : List String) = []) := by
          rintro (h | h)
          · exact haa h
          · exact List.cons_ne_nil r rs h
        have hc2 : ¬ (a = ";" ∨ (r :: rs).map substConditional = []) := by
          rintro (h | h)
          · exact ha h
          · simp at h
        rw [List.map_cons, hsa]
        conv_lhs => rw [handleAux_cons]
        conv_rhs => rw [handleAux_cons]
        rw [if_neg hc1, if_neg hc2, ih (buf.set j (some a)) (j + 1) hrest hlast2]

/-- C6 (amended): for every token sequence that contains no `;` token and
does not end with `&&`, processing the `&&`-joined line is behaviorally
identical to processing the `;`-joined line obtained by replacing every
`&&` with `;` — the same splitting function produces the identical
sequence of executor invocations, all executed unconditionally. -/
theorem c6_amended (args : List String) (buf : Buf)
    (h1 : ";" ∉ args) (h2 : args.getLast? ≠ some "&&") :
    handleMultipleCommands args "&&" buf =
      handleMultipleCommands (args.map substConditional) ";" buf :=
  handleAux_subst args buf 0 h1 h2

/-- Witness for C6 (amended) at `["echo","x","&&","echo","y"]`. -/
theorem c6_amended_witness :
    ((";" ∉ (["echo", "x", "&&", "echo", "y"] : List String)) ∧
      (["echo", "x", "&&", "echo", "y"] : List String).getLast? ≠ some "&&") ∧
      handleMultipleCommands ["echo", "x", "&&", "echo", "y"] "&&"
          (List.replicate MAX_NUM_CMDS none) =
        handleMultipleCommands (["echo", "x", "&&", "echo", "y"].map substConditional) ";"
          (List.replicate MAX_NUM_CMDS none) :=
  ⟨⟨by decide, by decide⟩,
    c6_amended ["echo", "x", "&&", "echo", "y"] (List.replicate MAX_NUM_CMDS none)
      (by decide) (by decide)⟩

/-- C7: for a non-empty command, if image replacement fails in the child a
diagnostic goes to standard error and the child exits with non-zero
status while the shell continues; if process creation fails a diagnostic
goes to standard error and the call returns without terminating the
shell; whenever a child was created the parent blocks on `wait`, and the
parent-side outcome never depends on the child's exit status. -/
theorem c7_executor_errors (args : List String) (hargs : args ≠ [])
    (forkOk execOk : Bool) :
    (forkOk = true → execOk = false →
      (executeCommand args forkOk execOk).childStderr = ["Error executing command"] ∧
      (executeCommand args forkOk execOk).childExitsNonZero = true ∧
      (executeCommand args forkOk execOk).shellExits = false) ∧
    (forkOk = false →
      (executeCommand args forkOk execOk).parentStderr = ["Fork failed"] ∧
      (executeCommand args forkOk execOk).shellExits = false) ∧
    (forkOk = true → (executeCommand args forkOk execOk).parentWaitedForChild = true) ∧
    ((executeCommand args forkOk true).parentStderr =
        (executeCommand args forkOk false).parentStderr ∧
      (executeCommand args forkOk true).parentWaitedForChild =
        (executeCommand args forkOk false).parentWaitedForChild ∧
      (executeCommand args forkOk true).shellExits =
        (executeCommand args forkOk false).shellExits) ∧
    (executeCommand args forkOk execOk).shellExits = false := by
  cases forkOk <;> cases execOk <;> simp [executeCommand]

/-- Witness for C7 at `["ls"]` with a successful fork and failing exec. -/
theorem c7_executor_errors_witness :
    (["ls"] : List String) ≠ [] ∧
      ((executeCommand ["ls"] true false).childStderr = ["Error executing command"] ∧
        (executeCommand ["ls"] true false).childExitsNonZero = true ∧
        (executeCommand ["ls"] true false).shellExits = false) :=
  ⟨by decide, (c7_executor_errors ["ls"] (by decide) true false).1 rfl rfl⟩

lemma processCommandExits_eq_true_iff (args : List String) :
    processCommandExits args = true ↔ args = ["quit"] := by
  constructor
  · intro h
    unfold processCommandExits at h
    revert h
    split
    · rename_i h4
      intro h
      obtain ⟨t, rfl, -⟩ := (getCommandType_eq_four_iff _).mp h4
      simp only [List.headD, decide_eq_true_eq] at h
      subst h
      rfl
    · intro h
      exact absurd h (by simp)
  · rintro rfl
    decide

/-- C9: in interactive mode a read failure only re-prompts — it adds no
processed line and never terminates the session — and the session
terminates only when some successfully read line tokenizes to the `quit`
builtin. -/
theorem c9_interactive_loop (rs : List ReadResult) :
    ((runInteractive (ReadResult.failure :: rs)).1 =
        LoopEvent.prompt :: (runInteractive rs).1 ∧
      (runInteractive (ReadResult.failure :: rs)).2 = (runInteractive rs).2) ∧
    ((runInteractive rs).2 = true →
      ∃ s, ReadResult.line s ∈ rs ∧ tokenize s = ["quit"]) := by
  refine ⟨⟨rfl, rfl⟩, ?_⟩
  induction rs with
  | nil => intro h; exact absurd h (by simp [runInteractive])
  | cons r rest ih =>
    intro h
    cases r with
    | failure =>
      obtain ⟨s, hs, ht⟩ := ih (by simpa [runInteractive] using h)
      exact ⟨s, List.mem_cons_of_mem _ hs, ht⟩
    | line s =>
      by_cases hq : processCommandExits (tokenize s) = true
      · exact ⟨s, List.mem_cons_self _ _, (processCommandExits_eq_true_iff _).mp hq⟩
      · have h2 : (runInteractive rest).2 = true := by
          simpa [runInteractive, hq] using h
        obtain ⟨u, hu, ht⟩ := ih h2
        exact ⟨u, List.mem_cons_of_mem _ hu, ht⟩

/-- Witness for C9: reading the line `quit` terminates the session. -/
theorem c9_interactive_loop_witness :
    (runInteractive [ReadResult.line "quit"]).2 = true ∧
      ∃ s, ReadResult.line s ∈ [ReadResult.line "quit"] ∧ tokenize s = ["quit"] :=
  ⟨by decide, (c9_interactive_loop [ReadResult.line "quit"]).2 (by decide)⟩


/-- C1 (code evaluation at the failing input): splitting
`["echo","a",";","b"]` on `;` makes the second `executeCommand`
invocation receive `["b","a"]` — the token `"a"` left in the `commands`
buffer by the first group — instead of exactly `["b"]`, because the final
group is stored without a NULL terminator. The leak happens for every
content of the uninitialized buffer. -/
theorem c1_bug_eval (b0 b1 b2 : Option String) (rest : Buf) :
    handleMultipleCommands ["echo", "a", ";", "b"] ";" (b0 :: b1 :: b2 :: rest) =
      [["echo", "a"], ["b", "a"]] := by
  rfl

/-- C2 (code evaluation at the failing input): when the token sequence
ends with the delimiter, `commands[j]` receives `args[i]` — the delimiter
itself — so the single `executeCommand` invocation for `["ls",";"]` has
the delimiter `";"` as its second argument, for every content of the
uninitialized buffer. -/
theorem c2_bug_eval (b0 b1 : Option String) (rest : Buf) :
    handleMultipleCommands ["ls", ";"] ";" (b0 :: b1 :: rest) =
      ["ls" :: ";" :: argvOf rest] := by
  rfl

/-- C3 (code evaluation at the failing input): a line of 20 tokens fits
into the 512-byte line buffer, yet `processInput` then performs a write at
index `MAX_NUM_CMDS` = 20 (the NULL terminator), outside the 20-entry
`args` array. -/
theorem c3_bug_eval :
    (tokenize "a a a a a a a a a a a a a a a a a a a a").length = 20 ∧
      "a a a a a a a a a a a a a a a a a a a a".length < MAX_CMD_LENGTH ∧
      MAX_NUM_CMDS ∈ processInputWriteIndices "a a a a a a a a a a a a a a a a a a a a" :=
  ⟨by decide, by decide, by decide⟩

/-- C4 (counterexample): on `[";","ls"]` the Process Executor is invoked
for the empty leading group — the empty argument vector occurs among the
invocations — contradicting the claim that the executor is called only
for groups containing at least one token. -/
theorem c4_counterexample :
    [] ∈ handleMultipleCommands [";", "ls"] ";" (List.replicate MAX_NUM_CMDS none) := by
  decide

/-- C6 (counterexample): on `["a","&&","b",";","c"]` processing the
`&&`-joined line is not behaviorally identical to processing the line
with every `&&` replaced by `;` — the former performs 2 executor
invocations, the latter 3. -/
theorem c6_counterexample :
    handleMultipleCommands ["a", "&&", "b", ";", "c"] "&&"
        (List.replicate MAX_NUM_CMDS none) ≠
      handleMultipleCommands (["a", "&&", "b", ";", "c"].map substConditional) ";"
        (List.replicate MAX_NUM_CMDS none) := by
  decide

/-- C8: splitting `["echo","a",";","echo","b",";","echo","c"]` on `;`
invokes the Process Executor exactly three times, in order, with
`["echo","a"]`, `["echo","b"]`, `["echo","c"]`, for every content of the
uninitialized `commands` buffer. -/
theorem c8_example_split (b0 b1 b2 : Option String) (rest : Buf) :
    handleMultipleCommands ["echo", "a", ";", "echo", "b", ";", "echo", "c"] ";"
        (b0 :: b1 :: b2 :: rest) =
      [["echo", "a"], ["echo", "b"], ["echo", "c"]] := by
  rfl
